import Mathlib

/-!
# Verification development for the `gemini-rod` conversation loop

Shallow embedding of the Go library `gemini-rod` (files `loop.go`, `event.go`,
the built-in tool dispatch file, and the event variants file), together with
theorems settling the stated claims about it.

Modelling conventions:
* Go `map[string]any` values become association lists over a `GoVal` sum type
  (Go `float64` is modelled exactly by `ℚ`; no floating-point rounding is
  relevant to any statement proved here).
* Go errors are strings (the formatted message).
* The browser session (an external collaborator per the spec) is modelled as an
  oracle for action outcomes plus a log of the actions performed so far; the
  log makes the temporal order of session effects observable.
* The event channel and the goroutine are modelled by having the loop return
  the finite trace of its observable steps (model requests, event emissions,
  built-in executions, custom-call waits) in order; the trace ending models
  the channel closing.
-/

namespace GeminiRod

/-- Go `any` values as they occur in tool arguments and results.
Go `float64` is modelled by `ℚ`. -/
inductive GoVal : Type where
  | str : String → GoVal
  | float : ℚ → GoVal
  | int : Int → GoVal
  | bool : Bool → GoVal
deriving DecidableEq, Repr

/-- Go `map[string]any`, as an association list (first binding of a key wins
on lookup; Go maps have unique keys). -/
abbrev Args := List (String × GoVal)

/-- Go map lookup `m[k]` (as `value, ok` with `ok` meaning `isSome`). -/
def mapGet (m : Args) (k : String) : Option GoVal :=
  (m.find? (fun kv => kv.1 = k)).map (fun kv => kv.2)

/-- Go map write `m[k] = v`. -/
def mapSet (m : Args) (k : String) (v : GoVal) : Args :=
  (m.filter (fun kv => kv.1 ≠ k)) ++ [(k, v)]

/-- Go `maps.Copy(dst, src)`: writes every binding of `src` into `dst`. -/
def mapsCopy (dst src : Args) : Args :=
  src.foldl (fun d kv => mapSet d kv.1 kv.2) dst

/-- Go `int(x)` on a `float64`: truncation toward zero. -/
def goTrunc (q : ℚ) : Int := q.num.tdiv q.den

/-- One imperative browser-session action, as invoked by the built-in tool
handlers on `computeruse.Session`. (`wait_5_seconds` sleeps; real time is not
modelled, only the fact that no session action is performed.) -/
inductive SessAction : Type where
  | goBack
  | goForward
  | search
  | navigate (url : String)
  | clickAt (x y : Int)
  | hoverAt (x y : Int)
  | typeTextAt (x y : Int) (text : String) (clearBefore pressEnter : Bool)
  | key (keys : List String)
  | scroll (direction : String) (magnitude : Int)
  | scrollAt (x y : Int) (direction : String) (magnitude : Int)
  | clickDrag (x y destX destY : Int)
deriving DecidableEq, Repr

/-- The browser session: an external collaborator. `log` is the ordered list
of actions already performed; the three oracle fields give the outcome of an
action, of `GetURL`, and of `Screenshot` as a function of the action history
(errors are Go error strings). -/
structure Session : Type where
  log : List SessAction
  actErr : List SessAction → SessAction → Option String
  urlF : List SessAction → Except String String
  shotF : List SessAction → Except String (List Nat)

/-- Perform one session action: consult the outcome oracle, and on success
record the action in the log. -/
def Session.doAct (s : Session) (a : SessAction) : Except String Session :=
  match s.actErr s.log a with
  | some e => .error e
  | none => .ok { s with log := s.log ++ [a] }

/-- `session.GetURL()`. -/
def Session.getURL (s : Session) : Except String String := s.urlF s.log

/-- `session.Screenshot()`: reads the screen after the actions performed so
far; does not change the session. -/
def Session.screenshot (s : Session) : Except String (List Nat) := s.shotF s.log

/-- `getURLResponse`: all handlers return only the current URL after the
operation. -/
def getURLResponse (s : Session) : Except String (Args × Session) :=
  match s.getURL with
  | .error e => .error e
  | .ok url => .ok ([("url", GoVal.str url)], s)

/-- `extractCoordinates`: `x` and `y` must each be a `float64` or an `int`;
a `float64` is coerced with Go `int(·)`. -/
def extractCoordinates (args : Args) : Except String (Int × Int) :=
  match mapGet args "x" with
  | some (GoVal.float q) => extractY (goTrunc q) args
  | some (GoVal.int n) => extractY n args
  | _ => .error "x argument must be a number"
where
  extractY (x : Int) (args : Args) : Except String (Int × Int) :=
    match mapGet args "y" with
    | some (GoVal.float q) => .ok (x, goTrunc q)
    | some (GoVal.int n) => .ok (x, n)
    | _ => .error "y argument must be a number"

/-- `handleOpenWebBrowser`: the browser is already open, so a no-op. -/
def handleOpenWebBrowser (s : Session) (_args : Args) : Except String (Args × Session) :=
  getURLResponse s

/-- `handleWait5Seconds`: sleeps (no session action), then returns the URL. -/
def handleWait5Seconds (s : Session) (_args : Args) : Except String (Args × Session) :=
  getURLResponse s

/-- `handleGoBack`. -/
def handleGoBack (s : Session) (_args : Args) : Except String (Args × Session) := do
  let s ← s.doAct .goBack
  getURLResponse s

/-- `handleGoForward`. -/
def handleGoForward (s : Session) (_args : Args) : Except String (Args × Session) := do
  let s ← s.doAct .goForward
  getURLResponse s

/-- `handleSearch`. -/
def handleSearch (s : Session) (_args : Args) : Except String (Args × Session) := do
  let s ← s.doAct .search
  getURLResponse s

/-- `handleNavigate`: requires a string `url` argument. -/
def handleNavigate (s : Session) (args : Args) : Except String (Args × Session) := do
  match mapGet args "url" with
  | some (GoVal.str url) => do
      let s ← s.doAct (.navigate url)
      getURLResponse s
  | _ => .error "url argument must be a string"

/-- `handleClickAt`. -/
def handleClickAt (s : Session) (args : Args) : Except String (Args × Session) := do
  let (x, y) ← extractCoordinates args
  let s ← s.doAct (.clickAt x y)
  getURLResponse s

/-- `handleHoverAt`. -/
def handleHoverAt (s : Session) (args : Args) : Except String (Args × Session) := do
  let (x, y) ← extractCoordinates args
  let s ← s.doAct (.hoverAt x y)
  getURLResponse s

/-- `handleTypeTextAt`: requires coordinates and a string `text`; the optional
`press_enter` and `clear_before_typing` default to `true` when absent or not
booleans. -/
def handleTypeTextAt (s : Session) (args : Args) : Except String (Args × Session) := do
  let (x, y) ← extractCoordinates args
  match mapGet args "text" with
  | some (GoVal.str text) =>
      let pressEnter : Bool :=
        match mapGet args "press_enter" with
        | some (GoVal.bool b) => b
        | _ => true
      let clearBefore : Bool :=
        match mapGet args "clear_before_typing" with
        | some (GoVal.bool b) => b
        | _ => true
      do
        let s ← s.doAct (.typeTextAt x y text clearBefore pressEnter)
        getURLResponse s
  | _ => .error "text argument must be a string"

/-- `handleKeyCombination`: splits the `keys` string on `+`. -/
def handleKeyCombination (s : Session) (args : Args) : Except String (Args × Session) := do
  match mapGet args "keys" with
  | some (GoVal.str keys) => do
      let s ← s.doAct (.key (keys.splitOn "+"))
      getURLResponse s
  | _ => .error "keys argument must be a string"

/-- `handleScrollDocument`: fixed scroll amount 800. -/
def handleScrollDocument (s : Session) (args : Args) : Except String (Args × Session) := do
  match mapGet args "direction" with
  | some (GoVal.str direction) => do
      let s ← s.doAct (.scroll direction 800)
      getURLResponse s
  | _ => .error "direction argument must be a string"

/-- `handleScrollAt`: coordinates, a string `direction`, and an optional
numeric `magnitude` defaulting to 800. -/
def handleScrollAt (s : Session) (args : Args) : Except String (Args × Session) := do
  let (x, y) ← extractCoordinates args
  match mapGet args "direction" with
  | some (GoVal.str direction) =>
      let magnitude : Int :=
        match mapGet args "magnitude" with
        | some (GoVal.float q) => goTrunc q
        | some (GoVal.int n) => n
        | _ => 800
      do
        let s ← s.doAct (.scrollAt x y direction magnitude)
        getURLResponse s
  | _ => .error "direction argument must be a string"

/-- `handleDragAndDrop`: coordinates plus numeric `destination_x` and
`destination_y`. -/
def handleDragAndDrop (s : Session) (args : Args) : Except String (Args × Session) := do
  let (x, y) ← extractCoordinates args
  let destX ← (match mapGet args "destination_x" with
    | some (GoVal.float q) => .ok (goTrunc q)
    | some (GoVal.int n) => .ok n
    | _ => .error "destination_x argument must be a number" : Except String Int)
  let destY ← (match mapGet args "destination_y" with
    | some (GoVal.float q) => .ok (goTrunc q)
    | some (GoVal.int n) => .ok n
    | _ => .error "destination_y argument must be a number" : Except String Int)
  let s ← s.doAct (.clickDrag x y destX destY)
  getURLResponse s

/-- The `builtInTools` registry: a constant map from tool name to handler,
embedded as a match on the name. -/
def builtInHandler? (name : String) :
    Option (Session → Args → Except String (Args × Session)) :=
  match name with
  | "open_web_browser" => some handleOpenWebBrowser
  | "wait_5_seconds" => some handleWait5Seconds
  | "go_back" => some handleGoBack
  | "go_forward" => some handleGoForward
  | "search" => some handleSearch
  | "navigate" => some handleNavigate
  | "click_at" => some handleClickAt
  | "hover_at" => some handleHoverAt
  | "type_text_at" => some handleTypeTextAt
  | "key_combination" => some handleKeyCombination
  | "scroll_document" => some handleScrollDocument
  | "scroll_at" => some handleScrollAt
  | "drag_and_drop" => some handleDragAndDrop
  | _ => none

/-- `IsBuiltInTool`: membership in the registry. -/
def IsBuiltInTool (name : String) : Bool :=
  (builtInHandler? name).isSome

/-- One binary attachment of a function response
(`genai.FunctionResponsePart`, built from bytes and a MIME type). -/
structure FunctionResponsePart : Type where
  data : List Nat
  mimeType : String
deriving DecidableEq, Repr

/-- A `genai.FunctionResponse`: tool name, structured payload, and optional
attachment parts. `parts = none` models a Go `nil` slice (the pruner relies on
the `nil` / non-`nil` distinction). -/
structure FunctionResponseData : Type where
  name : String
  response : Args
  parts : Option (List FunctionResponsePart)
deriving DecidableEq, Repr

/-- A `genai.FunctionCall` part payload. -/
structure FunctionCallData : Type where
  name : String
  args : Args
deriving DecidableEq, Repr

/-- A `genai.Part`: text, or a function call, or a function response. -/
structure Part : Type where
  text : String := ""
  functionCall : Option FunctionCallData := none
  functionResponse : Option FunctionResponseData := none
deriving DecidableEq, Repr

/-- `genai.NewPartFromFunctionResponse(name, response)`: no attachment parts
(Go `nil` slice). -/
def newPartFromFunctionResponse (name : String) (response : Args) : Part :=
  { text := "", functionCall := none,
    functionResponse := some { name := name, response := response, parts := none } }

/-- `genai.NewPartFromFunctionResponseWithParts(name, response, parts)`. -/
def newPartFromFunctionResponseWithParts (name : String) (response : Args)
    (parts : List FunctionResponsePart) : Part :=
  { text := "", functionCall := none,
    functionResponse := some { name := name, response := response, parts := some parts } }

/-- `HandleBuiltInTool`: looks up the handler, runs it, merges `extraFields`
into the result (extra fields win on collision, by `maps.Copy`), captures a
screenshot from the post-action session, and builds the function-response
part carrying the screenshot. -/
def HandleBuiltInTool (s : Session) (name : String) (args : Args)
    (extraFields : Args) : Except String (Part × Session) :=
  match builtInHandler? name with
  | none => .error ("unknown built-in tool: " ++ name)
  | some handler =>
    match handler s args with
    | .error e => .error e
    | .ok (result, s1) =>
      match s1.screenshot with
      | .error e => .error ("failed to take screenshot: " ++ e)
      | .ok bytes =>
        .ok (newPartFromFunctionResponseWithParts name (mapsCopy result extraFields)
              [{ data := bytes, mimeType := "image/png" }], s1)

/-- A `genai.Content`: one turn of the conversation, a role with parts.
(A Go `nil` parts slice has no elements, so it is modelled by `[]`: both make
every per-part scan a no-op.) -/
structure Content : Type where
  role : String
  parts : List Part
deriving DecidableEq, Repr

/-- `extractText`: concatenates all non-empty text parts of a content. -/
def extractText (c : Content) : String :=
  c.parts.foldl (fun acc p => if p.text ≠ "" then acc ++ p.text else acc) ""

/-- Modelled from the spec: the genai SDK's `resp.FunctionCalls()` (external
library code, not in this repository) — the ordered list of tool calls of the
model turn. -/
def extractFunctionCalls (c : Content) : List FunctionCallData :=
  c.parts.filterMap (fun p => p.functionCall)

/-- The effect of invoking a handle's respond/reject function: nothing (the
function field is `nil`), or a send on the associated pending call's response
or rejection channel, identified by its pending index. -/
inductive SettleEffect : Type where
  | noEffect
  | sendRespond (idx : Nat) (payload : Args)
  | sendReject (idx : Nat) (err : String)
deriving DecidableEq, Repr

/-- The caller-facing `FunctionCall` handle of `event.go`. `respondTarget` /
`rejectTarget` model the `respondFunc` / `rejectFunc` closure fields: `none`
models a `nil` function, `some j` a closure sending on the channels of the
`j`-th pending response. -/
structure FunctionCallHandle : Type where
  functionName : String
  args : Args
  needsAction : Bool
  respondTarget : Option Nat
  rejectTarget : Option Nat
deriving DecidableEq, Repr

/-- `FunctionCall.NeedsAction`. -/
def FunctionCallHandle.NeedsAction (fc : FunctionCallHandle) : Bool :=
  fc.needsAction

/-- `FunctionCall.Respond`: a guarded no-op when `respondFunc` is `nil`,
otherwise a send on the response channel. Total by construction — the `nil`
check is the `none` branch. -/
def FunctionCallHandle.Respond (fc : FunctionCallHandle) (response : Args) :
    SettleEffect :=
  match fc.respondTarget with
  | none => .noEffect
  | some j => .sendRespond j response

/-- `FunctionCall.Reject`: a guarded no-op when `rejectFunc` is `nil`. -/
def FunctionCallHandle.Reject (fc : FunctionCallHandle) (err : String) :
    SettleEffect :=
  match fc.rejectTarget with
  | none => .noEffect
  | some j => .sendReject j err

/-- A pending custom call (`pendingResponse` of `loop.go`): the stored
function call; its channels are identified positionally by the index of the
pending entry. -/
structure PendingResponse : Type where
  funcCall : FunctionCallData
deriving DecidableEq, Repr

/-- `createFunctionCallEvents`, with the pending index made explicit: built-in
calls get a handle with `needsAction = false` and `nil` respond/reject
functions; custom calls get a pending response slot and a handle whose
respond/reject closures target that slot. Returns the handles (one per call,
in call order) and the pending responses (custom calls, in relative order). -/
def createFunctionCallEventsAux (pIdx : Nat) :
    List FunctionCallData → List FunctionCallHandle × List PendingResponse
  | [] => ([], [])
  | fc :: rest =>
    if IsBuiltInTool fc.name then
      let (hs, ps) := createFunctionCallEventsAux pIdx rest
      ({ functionName := fc.name, args := fc.args, needsAction := false,
         respondTarget := none, rejectTarget := none } :: hs, ps)
    else
      let (hs, ps) := createFunctionCallEventsAux (pIdx + 1) rest
      ({ functionName := fc.name, args := fc.args, needsAction := true,
         respondTarget := some pIdx, rejectTarget := some pIdx } :: hs,
       { funcCall := fc } :: ps)

/-- `createFunctionCallEvents`. -/
def createFunctionCallEvents (functionCalls : List FunctionCallData) :
    List FunctionCallHandle × List PendingResponse :=
  createFunctionCallEventsAux 0 functionCalls

/-- The outcome of the dispatcher's wait on one custom call's channels: the
caller responded, the caller rejected, or the cancellation signal fired first.
Chosen by the environment (the `select` in `executeFunctionCalls`). -/
inductive Resolution : Type where
  | respond (payload : Args)
  | reject (err : String)
  | cancelled
deriving DecidableEq, Repr

/-- `ctx.Err()` after cancellation. -/
def ctxErrMsg : String := "context canceled"

/-- An event sent on the event channel (`event.go`). -/
inductive EventM : Type where
  | progress (text : String) (calls : List FunctionCallHandle)
  | error (err : String)
deriving DecidableEq, Repr

/-- One observable step of the loop, in order: a request to the model client
(with the history sent), an event emission on the channel, an invocation of
`HandleBuiltInTool`, or a wait on the `pIdx`-th pending custom call. -/
inductive TraceItem : Type where
  | genReq (history : List Content)
  | emit (e : EventM)
  | execBuiltIn (name : String)
  | awaitCustom (pIdx : Nat)
deriving DecidableEq, Repr

/-- `executeFunctionCalls`, processing the calls in original order with the
running pending index; returns the trace of executions/waits together with
the result. `src/loop.go` calls `HandleBuiltInTool` without extra fields;
that is the empty extras map, which `mapsCopy` leaves inert. An out-of-range
pending lookup (impossible at the loop's call site) models the Go runtime
fault as an error. -/
def executeFunctionCallsAux (res : Nat → Resolution)
    (pendingResponses : List PendingResponse) :
    Session → Nat → List FunctionCallData →
    List TraceItem × Except String (List Part × Session)
  | sess, _, [] => ([], .ok ([], sess))
  | sess, pendingIdx, fc :: rest =>
    if IsBuiltInTool fc.name then
      match HandleBuiltInTool sess fc.name fc.args [] with
      | .error e =>
          ([.execBuiltIn fc.name],
           .error ("error handling built-in tool " ++ fc.name ++ ": " ++ e))
      | .ok (part, sess1) =>
          let r := executeFunctionCallsAux res pendingResponses sess1 pendingIdx rest
          (.execBuiltIn fc.name :: r.1,
           match r.2 with
           | .error e => .error e
           | .ok (parts, sessEnd) => .ok (part :: parts, sessEnd))
    else
      match pendingResponses.get? pendingIdx with
      | none => ([.awaitCustom pendingIdx], .error "index out of range")
      | some pending =>
        match res pendingIdx with
        | .cancelled => ([.awaitCustom pendingIdx], .error ctxErrMsg)
        | .reject e =>
            ([.awaitCustom pendingIdx],
             .error ("function call " ++ pending.funcCall.name ++ " rejected: " ++ e))
        | .respond response =>
            let part := newPartFromFunctionResponse pending.funcCall.name response
            let r := executeFunctionCallsAux res pendingResponses sess (pendingIdx + 1) rest
            (.awaitCustom pendingIdx :: r.1,
             match r.2 with
             | .error e => .error e
             | .ok (parts, sessEnd) => .ok (part :: parts, sessEnd))

/-- `executeFunctionCalls`. -/
def executeFunctionCalls (sess : Session) (res : Nat → Resolution)
    (functionCalls : List FunctionCallData)
    (pendingResponses : List PendingResponse) :
    List TraceItem × Except String (List Part × Session) :=
  executeFunctionCallsAux res pendingResponses sess 0 functionCalls

/-- The per-part screenshot test of `pruneOldScreenshots`: a function response
with a non-`nil` attachment slice from a built-in computer use function. -/
def partHasScreenshot (p : Part) : Bool :=
  match p.functionResponse with
  | some fr => fr.parts.isSome && IsBuiltInTool fr.name
  | none => false

/-- The per-turn screenshot test of `pruneOldScreenshots`: a user-role turn
with at least one screenshot-bearing part. -/
def contentHasScreenshot (c : Content) : Bool :=
  c.role = "user" && c.parts.any partHasScreenshot

/-- Strip one part as the pruner does: drop the attachment slice (set it to
`nil`) of a screenshot-bearing built-in function response, keeping the
function response itself. -/
def stripPart (p : Part) : Part :=
  match p.functionResponse with
  | some fr =>
      if fr.parts.isSome && IsBuiltInTool fr.name then
        { p with functionResponse := some { fr with parts := none } }
      else p
  | none => p

/-- Strip every screenshot-bearing part of a turn. -/
def stripContent (c : Content) : Content :=
  { c with parts := c.parts.map stripPart }

/-- The reverse scan of `pruneOldScreenshots`: walk the (already reversed)
history most recent first, counting screenshot-bearing turns; strip every
such turn found after the first `maxTurns`. -/
def pruneRevAux (maxTurns : Int) : Nat → List Content → List Content
  | _, [] => []
  | found, c :: rest =>
    if contentHasScreenshot c then
      (if (found + 1 : Int) > maxTurns then stripContent c else c) ::
        pruneRevAux maxTurns (found + 1) rest
    else
      c :: pruneRevAux maxTurns found rest

/-- `pruneOldScreenshots`: iterate the history from most recent to oldest,
keep attachments of the first `maxTurns` screenshot-bearing turns, strip the
rest. (The Go code mutates in place; the model returns the updated history.) -/
def pruneOldScreenshots (history : List Content) (maxTurns : Int) : List Content :=
  (pruneRevAux maxTurns 0 history.reverse).reverse

/-- The environment of one loop run: the model client as a function of the
history sent (fully general, since history strictly grows), the cancellation
signal sampled at the top of iteration `k`, and for iteration `k` the outcome
of the wait on pending index `j` (which `select` branch fires). -/
structure LoopOracle : Type where
  gen : List Content → Except String Content
  ctxDone : Nat → Bool
  resolve : Nat → Nat → Resolution

/-- How a finite run of the loop ended: normal termination (turn without tool
calls), termination with an error event, or the iteration budget of the model
ran out while the loop was still going. -/
inductive LoopOutcome : Type where
  | done
  | failed
  | fuelOut
deriving DecidableEq, Repr

/-- Default substitution applied to `MaxRecentTurnsWithScreenshots` at the top
of `StartLoop`: `0` becomes the default `3`; every other value (negative
included) is kept. -/
def effectiveRetention (n : Int) : Int :=
  if n = 0 then 3 else n

/-- The pruning step at the bottom of each loop iteration: prune only when the
retention value is positive (`-1` and every other non-positive value mean
unlimited retention). -/
def pruneStep (retention : Int) (history : List Content) : List Content :=
  if retention > 0 then pruneOldScreenshots history retention else history

/-- The initial history seeded from the prompt. -/
def initialHistory (prompt : String) : List Content :=
  [{ role := "user", parts := [{ text := prompt }] }]

/-- The body of the goroutine of `StartLoop`, iterated at most `fuel` times
from iteration number `k`, session `sess` and history `history`; returns the
ordered trace of observable steps, the final history, and how the run ended.
The trace ending models the deferred close of the event channel. -/
def runLoopAux (o : LoopOracle) (retention : Int) :
    Nat → Nat → Session → List Content →
    List TraceItem × List Content × LoopOutcome
  | 0, _, _, history => ([], history, .fuelOut)
  | fuel + 1, k, sess, history =>
    if o.ctxDone k then
      ([.emit (.error ctxErrMsg)], history, .failed)
    else
      match o.gen history with
      | .error e =>
          ([.genReq history,
            .emit (.error ("error during generating content: " ++ e))],
           history, .failed)
      | .ok content =>
        let history1 := history ++ [content]
        let text := extractText content
        let functionCalls := extractFunctionCalls content
        if functionCalls.isEmpty then
          ([.genReq history, .emit (.progress text [])], history1, .done)
        else
          let callEvents := (createFunctionCallEvents functionCalls).1
          let pendingResponses := (createFunctionCallEvents functionCalls).2
          let ex := executeFunctionCalls sess (o.resolve k) functionCalls pendingResponses
          match ex.2 with
          | .error e =>
              (.genReq history :: .emit (.progress text callEvents) ::
                 (ex.1 ++ [.emit (.error e)]),
               history1, .failed)
          | .ok (responseParts, sess1) =>
            let history2 := history1 ++ [{ role := "user", parts := responseParts }]
            let history3 := pruneStep retention history2
            let next := runLoopAux o retention fuel (k + 1) sess1 history3
            (.genReq history :: .emit (.progress text callEvents) :: (ex.1 ++ next.1),
             next.2.1, next.2.2)

/-- `StartLoop`: apply the default substitution to the retention window, seed
the history with the prompt, and run the loop. -/
def StartLoopRun (o : LoopOracle) (sess : Session) (prompt : String)
    (maxRecentTurnsWithScreenshots : Int) (fuel : Nat) :
    List TraceItem × List Content × LoopOutcome :=
  runLoopAux o (effectiveRetention maxRecentTurnsWithScreenshots) fuel 0 sess
    (initialHistory prompt)

/-- The events of a trace, in emission order. -/
def traceEvents (tr : List TraceItem) : List EventM :=
  tr.filterMap (fun t => match t with | .emit e => some e | _ => none)

/-- The histories sent to the model client during a trace, in order. -/
def traceRequests (tr : List TraceItem) : List (List Content) :=
  tr.filterMap (fun t => match t with | .genReq h => some h | _ => none)

/-- Is an event an error event? -/
def EventM.isError : EventM → Bool
  | .error _ => true
  | .progress _ _ => false

/-- Is a trace item an event emission? -/
def TraceItem.isEmit : TraceItem → Bool
  | .emit _ => true
  | _ => false

/-- All events of a trace except possibly the last are non-errors. -/
def errorsOnlyLast (evs : List EventM) : Prop :=
  ∀ e ∈ evs.dropLast, e.isError = false

/-- A sample session whose oracles always succeed: every action works, the
URL is fixed, the screen reads `[1, 2, 3]`. -/
def sampleSession : Session :=
  { log := [],
    actErr := fun _ _ => none,
    urlF := fun _ => .ok "https://example.com",
    shotF := fun _ => .ok [1, 2, 3] }

/-- Sample arguments for `type_text_at` with no optional fields supplied. -/
def sampleTypeArgs : Args :=
  [("x", .int 100), ("y", .int 200), ("text", .str "golang")]

/-- Sample arguments for `scroll_at` with no `magnitude` supplied. -/
def sampleScrollArgs : Args :=
  [("x", .int 50), ("y", .int 50), ("direction", .str "down")]

/-- A sample model turn holding text and one custom (non-built-in) call. -/
def sampleCustomTurn : Content :=
  { role := "model",
    parts := [{ text := "t1" },
              { functionCall := some { name := "custom_tool", args := [] } }] }

/-- A sample model turn with text only (no tool calls). -/
def sampleFinalTurn : Content :=
  { role := "model", parts := [{ text := "bye" }] }

/-- A sample oracle: the model answers the first request with one custom tool
call, the context is never cancelled, and the caller rejects every custom
call. -/
def sampleRejectOracle : LoopOracle :=
  { gen := fun h => if h.length = 1 then .ok sampleCustomTurn else .ok sampleFinalTurn,
    ctxDone := fun _ => false,
    resolve := fun _ _ => .reject "nope" }

/-- A sample oracle whose model immediately answers without tool calls. -/
def sampleDoneOracle : LoopOracle :=
  { gen := fun _ => .ok sampleFinalTurn,
    ctxDone := fun _ => false,
    resolve := fun _ _ => .respond [] }

/-- A sample screenshot-bearing tool-result turn. -/
def sampleShotTurn : Content :=
  { role := "user",
    parts := [newPartFromFunctionResponseWithParts "click_at" [("url", .str "u")]
                [{ data := [9], mimeType := "image/png" }]] }

/-- A sample history: four screenshot-bearing turns with a model turn between. -/
def sampleHistory : List Content :=
  [sampleShotTurn, { role := "model", parts := [{ text := "hi" }] },
   sampleShotTurn, sampleShotTurn, sampleShotTurn]

end GeminiRod

namespace GeminiRod

/-! ## Map lemmas -/

theorem mapGet_nil (k : String) : mapGet [] k = none := rfl

theorem mapGet_cons (k0 : String) (v0 : GoVal) (rest : Args) (k : String) :
    mapGet ((k0, v0) :: rest) k = if k0 = k then some v0 else mapGet rest k := by
  simp only [mapGet, List.find?]
  by_cases h : k0 = k <;> simp [h]

theorem mapSet_cons_drop (k0 : String) (v0 : GoVal) (rest : Args) (k : String)
    (v : GoVal) (h : k0 = k) :
    mapSet ((k0, v0) :: rest) k v = mapSet rest k v := by
  simp [mapSet, List.filter_cons, h]

theorem mapSet_cons_keep (k0 : String) (v0 : GoVal) (rest : Args) (k : String)
    (v : GoVal) (h : ¬ k0 = k) :
    mapSet ((k0, v0) :: rest) k v = (k0, v0) :: mapSet rest k v := by
  simp [mapSet, List.filter_cons, h]

theorem mapGet_mapSet (m : Args) (k k' : String) (v : GoVal) :
    mapGet (mapSet m k v) k' = if k' = k then some v else mapGet m k' := by
  induction m with
  | nil =>
    show mapGet [(k, v)] k' = _
    rw [mapGet_cons]
    by_cases h : k' = k
    · simp [h]
    · rw [if_neg h, if_neg (fun hc : k = k' => h hc.symm)]
  | cons kv rest ih =>
    obtain ⟨k0, v0⟩ := kv
    by_cases h0 : k0 = k
    · rw [mapSet_cons_drop k0 v0 rest k v h0, ih, mapGet_cons]
      by_cases h : k' = k
      · simp [h]
      · have hne : ¬ k0 = k' := by rw [h0]; exact fun hc => h hc.symm
        simp [h, hne]
    · rw [mapSet_cons_keep k0 v0 rest k v h0, mapGet_cons, mapGet_cons, ih]
      by_cases h1 : k0 = k'
      · have hne : ¬ k' = k := by rw [← h1]; exact fun hc => h0 hc
        simp [h1, hne]
      · simp [h1]

theorem mapGet_eq_none_of_not_mem (m : Args) (k : String)
    (h : k ∉ m.map Prod.fst) : mapGet m k = none := by
  induction m with
  | nil => rfl
  | cons kv rest ih =>
    obtain ⟨k0, v0⟩ := kv
    simp only [List.map_cons, List.mem_cons, not_or] at h
    rw [mapGet_cons, if_neg (fun hc => h.1 hc.symm)]
    exact ih h.2

theorem mapGet_mapsCopy (src : Args) (h : (src.map Prod.fst).Nodup) :
    ∀ (dst : Args) (k : String),
      mapGet (mapsCopy dst src) k =
        match mapGet src k with
        | some v => some v
        | none => mapGet dst k := by
  induction src with
  | nil => intro dst k; rfl
  | cons kv rest ih =>
    intro dst k
    obtain ⟨k0, v0⟩ := kv
    simp only [List.map_cons, List.nodup_cons] at h
    have hrest := ih h.2
    show mapGet (mapsCopy (mapSet dst k0 v0) rest) k = _
    rw [hrest, mapGet_cons]
    by_cases hk : k0 = k
    · subst hk
      rw [mapGet_eq_none_of_not_mem rest k0 h.1]
      simp [mapGet_mapSet]
    · rw [if_neg hk]
      cases hrk : mapGet rest k with
      | some v => simp
      | none =>
        simp only []
        rw [mapGet_mapSet, if_neg (fun hc => hk hc.symm)]

/-! ## Claims C3 and C7 -/

/-- C3: the loop substitutes the retention-window configuration — a configured
value of `0` becomes the default `3`, and every negative configured value is
kept and makes the pruning step the identity on history (unlimited retention:
no screenshot attachment is ever removed), for every history. -/
theorem retention_defaults_and_unlimited :
    effectiveRetention 0 = 3 ∧
    ∀ n : Int, n < 0 →
      effectiveRetention n = n ∧
      ∀ history : List Content, pruneStep (effectiveRetention n) history = history := by
  refine ⟨rfl, ?_⟩
  intro n hn
  have hne : ¬ n = 0 := by omega
  constructor
  · simp [effectiveRetention, hne]
  · intro history
    rw [pruneStep, effectiveRetention, if_neg hne, if_neg (by omega : ¬ n > 0)]

/-- Witness for C3 at `n = -1` on a sample history. -/
theorem retention_defaults_and_unlimited_witness :
    (-1 : Int) < 0 ∧ pruneStep (effectiveRetention (-1)) sampleHistory = sampleHistory :=
  ⟨by decide, (retention_defaults_and_unlimited.2 (-1) (by decide)).2 sampleHistory⟩

/-- C7: for every built-in tool name, argument map and extras map,
`HandleBuiltInTool` (i) fails with an unknown-tool error when the name is not
in the registry, (ii) when the handler succeeds and the screenshot (taken
from the post-action session) succeeds, returns a function-response part
whose payload is the handler result merged with the extra fields — extra
fields winning on every colliding key — and whose attachment is that
screenshot, and (iii) fails with the screenshot error when the capture
fails. -/
theorem handle_built_in_tool_contract :
    (∀ (s : Session) (name : String) (args extra : Args),
      IsBuiltInTool name = false →
      HandleBuiltInTool s name args extra = .error ("unknown built-in tool: " ++ name)) ∧
    (∀ (s : Session) (name : String) (args extra : Args)
       (handler : Session → Args → Except String (Args × Session))
       (result : Args) (s1 : Session) (bytes : List Nat),
      builtInHandler? name = some handler →
      handler s args = .ok (result, s1) →
      s1.screenshot = .ok bytes →
      HandleBuiltInTool s name args extra =
        .ok (newPartFromFunctionResponseWithParts name (mapsCopy result extra)
              [{ data := bytes, mimeType := "image/png" }], s1) ∧
      ((extra.map Prod.fst).Nodup →
        ∀ k, mapGet (mapsCopy result extra) k =
          match mapGet extra k with
          | some v => some v
          | none => mapGet result k)) ∧
    (∀ (s : Session) (name : String) (args extra : Args)
       (handler : Session → Args → Except String (Args × Session))
       (result : Args) (s1 : Session) (e : String),
      builtInHandler? name = some handler →
      handler s args = .ok (result, s1) →
      s1.screenshot = .error e →
      HandleBuiltInTool s name args extra =
        .error ("failed to take screenshot: " ++ e)) := by
  refine ⟨?_, ?_, ?_⟩
  · intro s name args extra h
    have hn : builtInHandler? name = none := by
      unfold IsBuiltInTool at h
      exact Option.not_isSome_iff_eq_none.mp (by simp [h])
    simp [HandleBuiltInTool, hn]
  · intro s name args extra handler result s1 bytes h1 h2 h3
    refine ⟨by simp [HandleBuiltInTool, h1, h2, h3], ?_⟩
    intro hnd k
    exact mapGet_mapsCopy extra hnd result k
  · intro s name args extra handler result s1 e h1 h2 h3
    simp [HandleBuiltInTool, h1, h2, h3]

/-- Witness for C7: an unknown name fails, and `go_back` with a safety
acknowledgement extra field produces the merged payload with the screenshot
of the post-action session attached. -/
theorem handle_built_in_tool_contract_witness :
    IsBuiltInTool "nope" = false ∧
    HandleBuiltInTool sampleSession "nope" [] [] =
      .error ("unknown built-in tool: " ++ "nope") ∧
    HandleBuiltInTool sampleSession "go_back" []
        [("safety_acknowledgement", .bool true)] =
      .ok (newPartFromFunctionResponseWithParts "go_back"
            (mapsCopy [("url", .str "https://example.com")]
              [("safety_acknowledgement", .bool true)])
            [{ data := [1, 2, 3], mimeType := "image/png" }],
          { sampleSession with log := [.goBack] }) :=
  ⟨rfl,
   handle_built_in_tool_contract.1 sampleSession "nope" [] [] rfl,
   (handle_built_in_tool_contract.2.1 sampleSession "go_back" []
      [("safety_acknowledgement", .bool true)] handleGoBack
      [("url", .str "https://example.com")]
      { sampleSession with log := [.goBack] } [1, 2, 3] rfl rfl rfl).1⟩

/-! ## Handle construction lemmas and claim C10 -/

theorem cfce_aux_handles_length (fcs : List FunctionCallData) :
    ∀ pIdx, (createFunctionCallEventsAux pIdx fcs).1.length = fcs.length := by
  induction fcs with
  | nil => intro _; rfl
  | cons fc rest ih =>
    intro pIdx
    by_cases h : IsBuiltInTool fc.name <;>
      simp [createFunctionCallEventsAux, h, ih]

theorem cfce_aux_handles_getElem (fcs : List FunctionCallData) :
    ∀ (pIdx i : Nat) (hi : i < fcs.length)
      (hh : i < (createFunctionCallEventsAux pIdx fcs).1.length),
      (createFunctionCallEventsAux pIdx fcs).1.get ⟨i, hh⟩ =
        (if IsBuiltInTool (fcs.get ⟨i, hi⟩).name then
          { functionName := (fcs.get ⟨i, hi⟩).name, args := (fcs.get ⟨i, hi⟩).args,
            needsAction := false, respondTarget := none, rejectTarget := none }
         else
          { functionName := (fcs.get ⟨i, hi⟩).name, args := (fcs.get ⟨i, hi⟩).args,
            needsAction := true,
            respondTarget := some (pIdx +
              ((fcs.take i).filter (fun fc => !(IsBuiltInTool fc.name))).length),
            rejectTarget := some (pIdx +
              ((fcs.take i).filter (fun fc => !(IsBuiltInTool fc.name))).length) }) := by
  induction fcs with
  | nil => intro _ i hi; exact absurd hi (Nat.not_lt_zero i)
  | cons fc rest ih =>
    intro pIdx i hi hh
    by_cases h : IsBuiltInTool fc.name
    · cases i with
      | zero => simp [createFunctionCallEventsAux, h]
      | succ j =>
        have hj : j < rest.length := Nat.lt_of_succ_lt_succ hi
        have hh' : j < (createFunctionCallEventsAux pIdx rest).1.length := by
          rw [cfce_aux_handles_length]; exact hj
        have := ih pIdx j hj hh'
        simp only [createFunctionCallEventsAux, h, if_true]
        simpa [List.take_succ_cons, List.filter_cons, h] using this
    · cases i with
      | zero => simp [createFunctionCallEventsAux, h]
      | succ j =>
        have hj : j < rest.length := Nat.lt_of_succ_lt_succ hi
        have hh' : j < (createFunctionCallEventsAux (pIdx + 1) rest).1.length := by
          rw [cfce_aux_handles_length]; exact hj
        have hrec := ih (pIdx + 1) j hj hh'
        rw [show ((createFunctionCallEventsAux pIdx (fc :: rest)).1.get ⟨j + 1, hh⟩ :
              FunctionCallHandle) =
            (createFunctionCallEventsAux (pIdx + 1) rest).1.get ⟨j, hh'⟩ from by
              simp [createFunctionCallEventsAux, h]]
        rw [hrec]
        have harith :
            pIdx + 1 + ((rest.take j).filter (fun fc => !(IsBuiltInTool fc.name))).length =
            pIdx + (((rest.take j).filter (fun fc => !(IsBuiltInTool fc.name))).length + 1) := by
          omega
        simp only [harith]
        simp [List.take_succ_cons, List.filter_cons, h]

/-- C10: for every handle produced for a built-in call (`needsAction` false),
the respond/reject closure fields are `nil` (`none`), so `Respond` and
`Reject` are total guarded no-ops with no effect; and such handles are
exactly those of registry calls. -/
theorem built_in_handle_respond_noop (fcs : List FunctionCallData) (i : Nat)
    (hi : i < fcs.length)
    (hh : i < (createFunctionCallEvents fcs).1.length)
    (hna : ((createFunctionCallEvents fcs).1.get ⟨i, hh⟩).NeedsAction = false) :
    ((createFunctionCallEvents fcs).1.get ⟨i, hh⟩).respondTarget = none ∧
    ((createFunctionCallEvents fcs).1.get ⟨i, hh⟩).rejectTarget = none ∧
    (∀ response : Args,
      ((createFunctionCallEvents fcs).1.get ⟨i, hh⟩).Respond response = .noEffect) ∧
    (∀ err : String,
      ((createFunctionCallEvents fcs).1.get ⟨i, hh⟩).Reject err = .noEffect) ∧
    IsBuiltInTool ((fcs.get ⟨i, hi⟩).name) = true := by
  have hchar := cfce_aux_handles_getElem fcs 0 i hi hh
  by_cases hb : IsBuiltInTool (fcs.get ⟨i, hi⟩).name
  · rw [if_pos hb] at hchar
    unfold createFunctionCallEvents at *
    rw [hchar]
    exact ⟨rfl, rfl, fun _ => rfl, fun _ => rfl, hb⟩
  · rw [if_neg hb] at hchar
    unfold createFunctionCallEvents at *
    rw [hchar] at hna
    exact absurd hna (by simp [FunctionCallHandle.NeedsAction])

/-! ## Claim C8 -/

theorem act_url_log (s s' : Session) (a : SessAction) (r : Args)
    (h : (do
        let s1 ← s.doAct a
        getURLResponse s1) = Except.ok (r, s')) :
    s'.log = s.log ++ [a] := by
  cases hact : s.actErr s.log a with
  | some e =>
    rw [show s.doAct a = Except.error e from by simp [Session.doAct, hact]] at h
    simp [Bind.bind, Except.bind] at h
  | none =>
    rw [show s.doAct a = Except.ok { s with log := s.log ++ [a] } from by
          simp [Session.doAct, hact]] at h
    simp only [Bind.bind, Except.bind, getURLResponse, Session.getURL] at h
    cases hurl : s.urlF (s.log ++ [a]) with
    | error e => rw [hurl] at h; simp at h
    | ok url =>
      rw [hurl] at h
      simp only [Except.ok.injEq, Prod.mk.injEq] at h
      rw [← h.2]

/-- C8: the optional arguments of the built-in handlers fall back to their
defaults when absent or of the wrong type: `type_text_at` resolves
`press_enter` and `clear_before_typing` to `true`, and `scroll_at` resolves
`magnitude` to `800`, as witnessed by the session action each handler
performs. -/
theorem optional_argument_defaults :
    (∀ (s s' : Session) (args : Args) (x y : Int) (t : String) (r : Args),
      extractCoordinates args = .ok (x, y) →
      mapGet args "text" = some (.str t) →
      (∀ b : Bool, mapGet args "press_enter" ≠ some (.bool b)) →
      (∀ b : Bool, mapGet args "clear_before_typing" ≠ some (.bool b)) →
      handleTypeTextAt s args = .ok (r, s') →
      s'.log = s.log ++ [.typeTextAt x y t true true]) ∧
    (∀ (s s' : Session) (args : Args) (x y : Int) (d : String) (r : Args),
      extractCoordinates args = .ok (x, y) →
      mapGet args "direction" = some (.str d) →
      (∀ q : ℚ, mapGet args "magnitude" ≠ some (.float q)) →
      (∀ n : Int, mapGet args "magnitude" ≠ some (.int n)) →
      handleScrollAt s args = .ok (r, s') →
      s'.log = s.log ++ [.scrollAt x y d 800]) := by
  constructor
  · intro s s' args x y t r hco htext hpe hcb hrun
    have hpe' : (match mapGet args "press_enter" with
                 | some (GoVal.bool b) => b
                 | _ => true) = true := by
      cases hv : mapGet args "press_enter" with
      | none => rfl
      | some v => cases v with
        | bool b => exact absurd hv (hpe b)
        | str a => rfl
        | float a => rfl
        | int a => rfl
    have hcb' : (match mapGet args "clear_before_typing" with
                 | some (GoVal.bool b) => b
                 | _ => true) = true := by
      cases hv : mapGet args "clear_before_typing" with
      | none => rfl
      | some v => cases v with
        | bool b => exact absurd hv (hcb b)
        | str a => rfl
        | float a => rfl
        | int a => rfl
    unfold handleTypeTextAt at hrun
    rw [hco] at hrun
    simp only [Bind.bind, Except.bind] at hrun
    rw [htext] at hrun
    simp only [hpe', hcb'] at hrun
    exact act_url_log s s' (.typeTextAt x y t true true) r hrun
  · intro s s' args x y d r hco hdir hmf hmi hrun
    have hm' : (match mapGet args "magnitude" with
                | some (GoVal.float q) => goTrunc q
                | some (GoVal.int n) => n
                | _ => (800 : Int)) = 800 := by
      cases hv : mapGet args "magnitude" with
      | none => rfl
      | some v => cases v with
        | float q => exact absurd hv (hmf q)
        | int n => exact absurd hv (hmi n)
        | str a => rfl
        | bool a => rfl
    unfold handleScrollAt at hrun
    rw [hco] at hrun
    simp only [Bind.bind, Except.bind] at hrun
    rw [hdir] at hrun
    simp only [hm'] at hrun
    exact act_url_log s s' (.scrollAt x y d 800) r hrun

/-- Witness for C8: `type_text_at` with no optional fields types with
`clear_before_typing = true` and `press_enter = true`; `scroll_at` with no
`magnitude` scrolls by 800. -/
theorem optional_argument_defaults_witness :
    ({ sampleSession with
        log := [SessAction.typeTextAt 100 200 "golang" true true] } : Session).log =
      sampleSession.log ++ [SessAction.typeTextAt 100 200 "golang" true true] ∧
    ({ sampleSession with
        log := [SessAction.scrollAt 50 50 "down" 800] } : Session).log =
      sampleSession.log ++ [SessAction.scrollAt 50 50 "down" 800] :=
  ⟨optional_argument_defaults.1 sampleSession
      { sampleSession with log := [SessAction.typeTextAt 100 200 "golang" true true] }
      sampleTypeArgs 100 200 "golang" [("url", .str "https://example.com")]
      rfl rfl (by decide) (by decide) rfl,
   optional_argument_defaults.2 sampleSession
      { sampleSession with log := [SessAction.scrollAt 50 50 "down" 800] }
      sampleScrollArgs 50 50 "down" [("url", .str "https://example.com")]
      rfl rfl (fun q h => nomatch h) (fun n h => nomatch h) rfl⟩

/-! ## Dispatch unfolding lemmas and claim C1 -/

theorem execAux_nil (res : Nat → Resolution) (pendings : List PendingResponse)
    (sess : Session) (pIdx : Nat) :
    executeFunctionCallsAux res pendings sess pIdx [] = ([], .ok ([], sess)) := rfl

theorem execAux_cons_builtin_error (res : Nat → Resolution)
    (pendings : List PendingResponse) (sess : Session) (pIdx : Nat)
    (fc : FunctionCallData) (rest : List FunctionCallData) (e : String)
    (hb : IsBuiltInTool fc.name = true)
    (he : HandleBuiltInTool sess fc.name fc.args [] = .error e) :
    executeFunctionCallsAux res pendings sess pIdx (fc :: rest) =
      ([.execBuiltIn fc.name],
       .error ("error handling built-in tool " ++ fc.name ++ ": " ++ e)) := by
  simp only [executeFunctionCallsAux]
  rw [if_pos hb, he]

theorem execAux_cons_builtin_ok (res : Nat → Resolution)
    (pendings : List PendingResponse) (sess sess1 : Session) (pIdx : Nat)
    (fc : FunctionCallData) (rest : List FunctionCallData) (part : Part)
    (hb : IsBuiltInTool fc.name = true)
    (hok : HandleBuiltInTool sess fc.name fc.args [] = .ok (part, sess1)) :
    executeFunctionCallsAux res pendings sess pIdx (fc :: rest) =
      (.execBuiltIn fc.name ::
         (executeFunctionCallsAux res pendings sess1 pIdx rest).1,
       match (executeFunctionCallsAux res pendings sess1 pIdx rest).2 with
       | .error e => .error e
       | .ok (parts, sessEnd) => .ok (part :: parts, sessEnd)) := by
  simp only [executeFunctionCallsAux]
  rw [if_pos hb, hok]

theorem execAux_cons_custom (res : Nat → Resolution)
    (pendings : List PendingResponse) (sess : Session) (pIdx : Nat)
    (fc : FunctionCallData) (rest : List FunctionCallData)
    (pending : PendingResponse)
    (hb : IsBuiltInTool fc.name = false)
    (hp : pendings.get? pIdx = some pending) :
    executeFunctionCallsAux res pendings sess pIdx (fc :: rest) =
      (match res pIdx with
       | .cancelled => ([.awaitCustom pIdx], .error ctxErrMsg)
       | .reject e =>
           ([.awaitCustom pIdx],
            .error ("function call " ++ pending.funcCall.name ++ " rejected: " ++ e))
       | .respond response =>
           (.awaitCustom pIdx ::
              (executeFunctionCallsAux res pendings sess (pIdx + 1) rest).1,
            match (executeFunctionCallsAux res pendings sess (pIdx + 1) rest).2 with
            | .error e => .error e
            | .ok (parts, sessEnd) =>
                .ok (newPartFromFunctionResponse pending.funcCall.name response :: parts,
                     sessEnd))) := by
  simp only [executeFunctionCallsAux]
  rw [if_neg (by simp [hb]), hp]

theorem cfce_aux_pendings (fcs : List FunctionCallData) :
    ∀ pIdx, (createFunctionCallEventsAux pIdx fcs).2 =
      (fcs.filter (fun fc => !(IsBuiltInTool fc.name))).map
        (fun fc => ({ funcCall := fc } : PendingResponse)) := by
  induction fcs with
  | nil => intro _; rfl
  | cons fc rest ih =>
    intro pIdx
    by_cases h : IsBuiltInTool fc.name <;>
      simp [createFunctionCallEventsAux, List.filter_cons, h, ih]

theorem handleBuiltInTool_ok_name (s : Session) (name : String) (args extra : Args)
    (part : Part) (s1 : Session)
    (h : HandleBuiltInTool s name args extra = .ok (part, s1)) :
    part.functionResponse.map (fun fr => fr.name) = some name := by
  unfold HandleBuiltInTool at h
  split at h
  · exact absurd h (by simp)
  · split at h
    · exact absurd h (by simp)
    · split at h
      · exact absurd h (by simp)
      · simp only [Except.ok.injEq, Prod.mk.injEq] at h
        rw [← h.1]
        rfl

theorem exec_aux_ok_names (res : Nat → Resolution) (pendings : List PendingResponse) :
    ∀ (fcs : List FunctionCallData) (sess : Session) (pIdx : Nat),
      pendings.drop pIdx =
        (fcs.filter (fun fc => !(IsBuiltInTool fc.name))).map
          (fun fc => ({ funcCall := fc } : PendingResponse)) →
      ∀ (tr : List TraceItem) (parts : List Part) (sessEnd : Session),
        executeFunctionCallsAux res pendings sess pIdx fcs = (tr, .ok (parts, sessEnd)) →
        parts.length = fcs.length ∧
        ∀ i (hif : i < fcs.length) (hip : i < parts.length),
          (parts.get ⟨i, hip⟩).functionResponse.map (fun fr => fr.name) =
            some ((fcs.get ⟨i, hif⟩).name) := by
  intro fcs
  induction fcs with
  | nil =>
    intro sess pIdx hp tr parts sessEnd h
    rw [execAux_nil] at h
    simp only [Prod.mk.injEq, Except.ok.injEq] at h
    refine ⟨by simp [← h.2.1], ?_⟩
    intro i hif hip
    rw [← h.2.1] at hip
    exact absurd hip (by simp)
  | cons fc rest ih =>
    intro sess pIdx hp tr parts sessEnd h
    by_cases hb : IsBuiltInTool fc.name
    · have hp' : pendings.drop pIdx =
          (rest.filter (fun fc => !(IsBuiltInTool fc.name))).map
            (fun fc => ({ funcCall := fc } : PendingResponse)) := by
        rw [hp, List.filter_cons]
        simp [hb]
      cases hhb : HandleBuiltInTool sess fc.name fc.args [] with
      | error e =>
        rw [execAux_cons_builtin_error res pendings sess pIdx fc rest e hb hhb] at h
        simp at h
      | ok ps =>
        obtain ⟨part1, sess1⟩ := ps
        rw [execAux_cons_builtin_ok res pendings sess sess1 pIdx fc rest part1 hb hhb] at h
        cases hr : (executeFunctionCallsAux res pendings sess1 pIdx rest).2 with
        | error e => rw [hr] at h; simp at h
        | ok prs =>
          obtain ⟨prs1, prs2⟩ := prs
          rw [hr] at h
          simp only [Prod.mk.injEq, Except.ok.injEq] at h
          have hparts : part1 :: prs1 = parts := h.2.1
          have hrec := ih sess1 pIdx hp'
            (executeFunctionCallsAux res pendings sess1 pIdx rest).1 prs1 prs2
            (by rw [← hr])
          rw [← hparts]
          constructor
          · simp [hrec.1]
          · intro i hif hip
            cases i with
            | zero => exact handleBuiltInTool_ok_name sess fc.name fc.args [] part1 sess1 hhb
            | succ j =>
              have hjf : j < rest.length := Nat.lt_of_succ_lt_succ hif
              have hjp : j < prs1.length := by
                have := hrec.1
                omega
              have := hrec.2 j hjf hjp
              simpa using this
    · have hbf : IsBuiltInTool fc.name = false := by simpa using hb
      have hpcons : pendings.drop pIdx =
          ({ funcCall := fc } : PendingResponse) ::
            (rest.filter (fun fc => !(IsBuiltInTool fc.name))).map
              (fun fc => ({ funcCall := fc } : PendingResponse)) := by
        rw [hp, List.filter_cons]
        simp [hbf]
      have hget : pendings.get? pIdx = some ({ funcCall := fc } : PendingResponse) := by
        have h1 : (pendings.drop pIdx).head? = some ({ funcCall := fc } : PendingResponse) := by
          rw [hpcons]; rfl
        rw [List.head?_drop] at h1
        simpa using h1
      have hp' : pendings.drop (pIdx + 1) =
          (rest.filter (fun fc => !(IsBuiltInTool fc.name))).map
            (fun fc => ({ funcCall := fc } : PendingResponse)) := by
        have hs : pendings.drop (pIdx + 1) = (pendings.drop pIdx).tail := by
          rw [← List.drop_one, List.drop_drop]
        rw [hs, hpcons]
        rfl
      rw [execAux_cons_custom res pendings sess pIdx fc rest _ hbf hget] at h
      cases hres : res pIdx with
      | cancelled => rw [hres] at h; simp at h
      | reject e => rw [hres] at h; simp at h
      | respond response =>
        rw [hres] at h
        cases hr : (executeFunctionCallsAux res pendings sess (pIdx + 1) rest).2 with
        | error e => rw [hr] at h; simp at h
        | ok prs =>
          obtain ⟨prs1, prs2⟩ := prs
          rw [hr] at h
          simp only [Prod.mk.injEq, Except.ok.injEq] at h
          have hparts : newPartFromFunctionResponse fc.name response :: prs1 = parts := h.2.1
          have hrec := ih sess (pIdx + 1) hp'
            (executeFunctionCallsAux res pendings sess (pIdx + 1) rest).1 prs1 prs2
            (by rw [← hr])
          rw [← hparts]
          constructor
          · simp [hrec.1]
          · intro i hif hip
            cases i with
            | zero => rfl
            | succ j =>
              have hjf : j < rest.length := Nat.lt_of_succ_lt_succ hif
              have hjp : j < prs1.length := by
                have := hrec.1
                omega
              have := hrec.2 j hjf hjp
              simpa using this

/-- C1: for every sequence of tool calls, whenever the dispatch step
(`executeFunctionCalls`, run as the loop runs it) succeeds, the returned part
sequence has exactly one entry per input call and the `i`-th part carries the
function name of the `i`-th call — for every resolution oracle, i.e.
regardless of the order in which custom resolutions complete relative to
built-in executions. -/
theorem execute_function_calls_ordered (fcs : List FunctionCallData)
    (sess : Session) (res : Nat → Resolution) (tr : List TraceItem)
    (parts : List Part) (sessEnd : Session)
    (h : executeFunctionCalls sess res fcs (createFunctionCallEvents fcs).2 =
      (tr, .ok (parts, sessEnd))) :
    parts.length = fcs.length ∧
    ∀ i (hif : i < fcs.length) (hip : i < parts.length),
      (parts.get ⟨i, hip⟩).functionResponse.map (fun fr => fr.name) =
        some ((fcs.get ⟨i, hif⟩).name) := by
  exact exec_aux_ok_names res (createFunctionCallEvents fcs).2 fcs sess 0
    (by rw [List.drop_zero, createFunctionCallEvents, cfce_aux_pendings])
    tr parts sessEnd h

/-- Witness for C1: a built-in `click_at` followed by a custom call, with the
caller responding; the two response parts carry the two call names in order. -/
theorem execute_function_calls_ordered_witness :
    ([newPartFromFunctionResponseWithParts "click_at"
        [("url", .str "https://example.com")]
        [{ data := [1, 2, 3], mimeType := "image/png" }],
      newPartFromFunctionResponse "custom_tool" [("answer", .str "42")]] :
        List Part).length =
      ([{ name := "click_at", args := [("x", .int 1), ("y", .int 2)] },
        { name := "custom_tool", args := [] }] : List FunctionCallData).length :=
  (execute_function_calls_ordered
    [{ name := "click_at", args := [("x", .int 1), ("y", .int 2)] },
     { name := "custom_tool", args := [] }]
    sampleSession (fun _ => .respond [("answer", .str "42")])
    [.execBuiltIn "click_at", .awaitCustom 0]
    [newPartFromFunctionResponseWithParts "click_at"
       [("url", .str "https://example.com")]
       [{ data := [1, 2, 3], mimeType := "image/png" }],
     newPartFromFunctionResponse "custom_tool" [("answer", .str "42")]]
    { sampleSession with log := [.clickAt 1 2] } rfl).1

/-! ## Loop unfolding lemmas and claims C5 and C6 -/

theorem execAux_cons_custom_none (res : Nat → Resolution)
    (pendings : List PendingResponse) (sess : Session) (pIdx : Nat)
    (fc : FunctionCallData) (rest : List FunctionCallData)
    (hb : IsBuiltInTool fc.name = false)
    (hp : pendings.get? pIdx = none) :
    executeFunctionCallsAux res pendings sess pIdx (fc :: rest) =
      ([.awaitCustom pIdx], .error "index out of range") := by
  simp only [executeFunctionCallsAux]
  rw [if_neg (by simp [hb]), hp]

theorem exec_aux_trace_no_emit (res : Nat → Resolution)
    (pendings : List PendingResponse) :
    ∀ (fcs : List FunctionCallData) (sess : Session) (pIdx : Nat),
      ∀ t ∈ (executeFunctionCallsAux res pendings sess pIdx fcs).1,
        t.isEmit = false := by
  intro fcs
  induction fcs with
  | nil =>
    intro sess pIdx t ht
    rw [execAux_nil] at ht
    simp at ht
  | cons fc rest ih =>
    intro sess pIdx t ht
    by_cases hb : IsBuiltInTool fc.name
    · cases hhb : HandleBuiltInTool sess fc.name fc.args [] with
      | error e =>
        rw [execAux_cons_builtin_error res pendings sess pIdx fc rest e hb hhb] at ht
        simp at ht
        subst ht
        rfl
      | ok ps =>
        obtain ⟨part1, sess1⟩ := ps
        rw [execAux_cons_builtin_ok res pendings sess sess1 pIdx fc rest part1 hb hhb] at ht
        rcases List.mem_cons.mp ht with h1 | h2
        · subst h1; rfl
        · exact ih sess1 pIdx t h2
    · have hbf : IsBuiltInTool fc.name = false := by simpa using hb
      cases hget : pendings.get? pIdx with
      | none =>
        rw [execAux_cons_custom_none res pendings sess pIdx fc rest hbf hget] at ht
        simp at ht
        subst ht
        rfl
      | some pending =>
        rw [execAux_cons_custom res pendings sess pIdx fc rest pending hbf hget] at ht
        cases hres : res pIdx with
        | cancelled => rw [hres] at ht; simp at ht; subst ht; rfl
        | reject e => rw [hres] at ht; simp at ht; subst ht; rfl
        | respond response =>
          rw [hres] at ht
          rcases List.mem_cons.mp ht with h1 | h2
          · subst h1; rfl
          · exact ih sess (pIdx + 1) t h2

/-- C5: a model turn with zero tool calls makes the loop emit exactly one
final `Progress` event with the turn's concatenated text and an empty call
list, append only the model turn, send no further request, and terminate
normally (the trace ends: the channel closes). -/
theorem zero_calls_final_progress (o : LoopOracle) (retention : Int)
    (fuel k : Nat) (sess : Session) (history : List Content) (content : Content)
    (hc : o.ctxDone k = false)
    (hg : o.gen history = .ok content)
    (hz : extractFunctionCalls content = []) :
    runLoopAux o retention (fuel + 1) k sess history =
      ([.genReq history, .emit (.progress (extractText content) [])],
       history ++ [content], .done) := by
  simp [runLoopAux, hc, hg, hz]

/-- Witness for C5: a model answer without tool calls ends the run with the
single final `Progress` event. -/
theorem zero_calls_final_progress_witness :
    runLoopAux sampleDoneOracle 3 1 0 sampleSession (initialHistory "go") =
      ([.genReq (initialHistory "go"), .emit (.progress "bye" [])],
       initialHistory "go" ++ [sampleFinalTurn], .done) :=
  zero_calls_final_progress sampleDoneOracle 3 0 0 sampleSession
    (initialHistory "go") sampleFinalTurn rfl rfl rfl

/-- C6: for a turn with at least one tool call, one `Progress` event carrying
the full ordered handle list (one handle per call, in call order, with the
call's name and its built-in/custom classification) is emitted before any
trace item of the dispatch — in particular before any built-in execution and
before any custom-call wait; the dispatch trace itself contains no
emissions. -/
theorem progress_emitted_before_execution (o : LoopOracle) (retention : Int)
    (fuel k : Nat) (sess : Session) (history : List Content) (content : Content)
    (hc : o.ctxDone k = false)
    (hg : o.gen history = .ok content)
    (hnz : extractFunctionCalls content ≠ []) :
    (∃ tail,
      (runLoopAux o retention (fuel + 1) k sess history).1 =
        .genReq history ::
          .emit (.progress (extractText content)
            (createFunctionCallEvents (extractFunctionCalls content)).1) ::
          ((executeFunctionCalls sess (o.resolve k) (extractFunctionCalls content)
              (createFunctionCallEvents (extractFunctionCalls content)).2).1 ++ tail)) ∧
    (∀ t ∈ (executeFunctionCalls sess (o.resolve k) (extractFunctionCalls content)
              (createFunctionCallEvents (extractFunctionCalls content)).2).1,
        t.isEmit = false) ∧
    (createFunctionCallEvents (extractFunctionCalls content)).1.length =
      (extractFunctionCalls content).length ∧
    (∀ i (hi : i < (extractFunctionCalls content).length)
        (hh : i < (createFunctionCallEvents (extractFunctionCalls content)).1.length),
      ((createFunctionCallEvents (extractFunctionCalls content)).1.get
          ⟨i, hh⟩).functionName =
        ((extractFunctionCalls content).get ⟨i, hi⟩).name ∧
      ((createFunctionCallEvents (extractFunctionCalls content)).1.get
          ⟨i, hh⟩).needsAction =
        !(IsBuiltInTool ((extractFunctionCalls content).get ⟨i, hi⟩).name)) := by
  refine ⟨?_, exec_aux_trace_no_emit (o.resolve k) _ _ sess 0, ?_, ?_⟩
  · have hz : (extractFunctionCalls content).isEmpty = false := by
      simpa [List.isEmpty_iff] using hnz
    cases hex : (executeFunctionCalls sess (o.resolve k) (extractFunctionCalls content)
        (createFunctionCallEvents (extractFunctionCalls content)).2).2 with
    | error e =>
      refine ⟨[.emit (.error e)], ?_⟩
      simp only [runLoopAux, hc, hg, hz]
      simp only [Bool.false_eq_true, if_false]
      rw [hex]
    | ok pr =>
      refine ⟨(runLoopAux o retention fuel (k + 1) pr.2
        (pruneStep retention ((history ++ [content]) ++
          [{ role := "user", parts := pr.1 }]))).1, ?_⟩
      obtain ⟨parts1, sess1⟩ := pr
      simp only [runLoopAux, hc, hg, hz]
      simp only [Bool.false_eq_true, if_false]
      rw [hex]
  · exact cfce_aux_handles_length (extractFunctionCalls content) 0
  · intro i hi hh
    have hchar := cfce_aux_handles_getElem (extractFunctionCalls content) 0 i hi hh
    by_cases hb : IsBuiltInTool ((extractFunctionCalls content).get ⟨i, hi⟩).name
    · rw [if_pos (by simpa using hb)] at hchar
      unfold createFunctionCallEvents
      rw [hchar]
      constructor
      · rfl
      · simpa using hb
    · rw [if_neg (by simpa using hb)] at hchar
      unfold createFunctionCallEvents
      rw [hchar]
      constructor
      · rfl
      · simpa using hb

/-- Witness for C6: in the sample rejecting run, the `Progress` event with
the single custom handle is emitted right after the model request and before
the dispatch's wait on the custom call. -/
theorem progress_emitted_before_execution_witness :
    (∃ tail,
      (runLoopAux sampleRejectOracle 3 1 0 sampleSession (initialHistory "go")).1 =
        .genReq (initialHistory "go") ::
          .emit (.progress (extractText sampleCustomTurn)
            (createFunctionCallEvents (extractFunctionCalls sampleCustomTurn)).1) ::
          ((executeFunctionCalls sampleSession (sampleRejectOracle.resolve 0)
              (extractFunctionCalls sampleCustomTurn)
              (createFunctionCallEvents (extractFunctionCalls sampleCustomTurn)).2).1
            ++ tail)) ∧
    (createFunctionCallEvents (extractFunctionCalls sampleCustomTurn)).1.length =
      (extractFunctionCalls sampleCustomTurn).length :=
  ⟨(progress_emitted_before_execution sampleRejectOracle 3 0 0 sampleSession
      (initialHistory "go") sampleCustomTurn rfl rfl (by decide)).1,
   (progress_emitted_before_execution sampleRejectOracle 3 0 0 sampleSession
      (initialHistory "go") sampleCustomTurn rfl rfl (by decide)).2.2.1⟩

/-! ## Claim C4 -/

theorem traceEvents_append (a b : List TraceItem) :
    traceEvents (a ++ b) = traceEvents a ++ traceEvents b := by
  simp [traceEvents]

theorem traceEvents_eq_nil_of_no_emit (tr : List TraceItem)
    (h : ∀ t ∈ tr, t.isEmit = false) : traceEvents tr = [] := by
  rw [traceEvents, List.filterMap_eq_nil_iff]
  intro t ht
  have := h t ht
  cases t with
  | emit e => exact absurd this (by simp [TraceItem.isEmit])
  | genReq x => rfl
  | execBuiltIn x => rfl
  | awaitCustom x => rfl

theorem errorsOnlyLast_nil : errorsOnlyLast [] := by
  intro e he
  simp at he

theorem errorsOnlyLast_single (e : EventM) : errorsOnlyLast [e] := by
  intro x hx
  simp [List.dropLast] at hx

theorem errorsOnlyLast_cons_progress (t : String) (cs : List FunctionCallHandle)
    (l : List EventM) (h : errorsOnlyLast l) :
    errorsOnlyLast (.progress t cs :: l) := by
  cases l with
  | nil => exact errorsOnlyLast_single _
  | cons a l2 =>
    intro e he
    rw [List.dropLast_cons₂] at he
    rcases List.mem_cons.mp he with h1 | h2
    · subst h1; rfl
    · exact h e h2

theorem run_loop_errors_only_last (o : LoopOracle) (retention : Int) :
    ∀ (fuel k : Nat) (sess : Session) (history : List Content),
      errorsOnlyLast (traceEvents (runLoopAux o retention fuel k sess history).1) := by
  intro fuel
  induction fuel with
  | zero =>
    intro k sess history
    simp only [runLoopAux]
    exact errorsOnlyLast_nil
  | succ n ih =>
    intro k sess history
    by_cases hc : o.ctxDone k
    · simp only [runLoopAux, hc, if_true]
      exact errorsOnlyLast_single _
    · have hcf : o.ctxDone k = false := by simpa using hc
      cases hg : o.gen history with
      | error e =>
        simp only [runLoopAux, hcf, Bool.false_eq_true, if_false]
        rw [hg]
        exact errorsOnlyLast_single _
      | ok content =>
        by_cases hz : extractFunctionCalls content = []
        · rw [zero_calls_final_progress o retention n k sess history content hcf hg hz]
          exact errorsOnlyLast_single _
        · have hzf : (extractFunctionCalls content).isEmpty = false := by
            simpa [List.isEmpty_iff] using hz
          have hnoemit := exec_aux_trace_no_emit (o.resolve k)
            (createFunctionCallEvents (extractFunctionCalls content)).2
            (extractFunctionCalls content) sess 0
          cases hex : (executeFunctionCalls sess (o.resolve k)
              (extractFunctionCalls content)
              (createFunctionCallEvents (extractFunctionCalls content)).2).2 with
          | error e =>
            simp only [runLoopAux, hcf, Bool.false_eq_true, if_false]
            rw [hg]
            simp only [hzf, Bool.false_eq_true, if_false]
            rw [hex]
            simp only [traceEvents, List.filterMap_cons, List.filterMap_append]
            rw [show (executeFunctionCalls sess (o.resolve k)
                (extractFunctionCalls content)
                (createFunctionCallEvents (extractFunctionCalls content)).2).1.filterMap
                  (fun t => match t with | .emit e => some e | _ => none) = [] from
              traceEvents_eq_nil_of_no_emit _ hnoemit]
            exact errorsOnlyLast_cons_progress _ _ _ (errorsOnlyLast_single _)
          | ok pr =>
            obtain ⟨parts1, sess1⟩ := pr
            simp only [runLoopAux, hcf, Bool.false_eq_true, if_false]
            rw [hg]
            simp only [hzf, Bool.false_eq_true, if_false]
            rw [hex]
            simp only [traceEvents, List.filterMap_cons, List.filterMap_append]
            rw [show (executeFunctionCalls sess (o.resolve k)
                (extractFunctionCalls content)
                (createFunctionCallEvents (extractFunctionCalls content)).2).1.filterMap
                  (fun t => match t with | .emit e => some e | _ => none) = [] from
              traceEvents_eq_nil_of_no_emit _ hnoemit]
            rw [List.nil_append]
            exact errorsOnlyLast_cons_progress _ _ _ (ih (k + 1) sess1 _)

/-- C4: when a turn's dispatch fails (built-in error, custom rejection, or
cancellation mid-wait — any `.error` outcome of `executeFunctionCalls`), the
loop emits its `Progress` event, then exactly one `Error` event, the trace
ends (the channel closes) with outcome `failed`, and only the model turn —
no tool-results turn — is appended to history; moreover in every run of the
loop, every event before the last one is a non-error, so an `Error` is never
followed by any event. -/
theorem dispatch_failure_single_error (o : LoopOracle) (retention : Int) :
    (∀ (fuel k : Nat) (sess : Session) (history : List Content)
       (content : Content) (e : String),
      o.ctxDone k = false →
      o.gen history = .ok content →
      extractFunctionCalls content ≠ [] →
      (executeFunctionCalls sess (o.resolve k) (extractFunctionCalls content)
          (createFunctionCallEvents (extractFunctionCalls content)).2).2 = .error e →
      runLoopAux o retention (fuel + 1) k sess history =
        (.genReq history ::
           .emit (.progress (extractText content)
             (createFunctionCallEvents (extractFunctionCalls content)).1) ::
           ((executeFunctionCalls sess (o.resolve k) (extractFunctionCalls content)
               (createFunctionCallEvents (extractFunctionCalls content)).2).1 ++
             [.emit (.error e)]),
         history ++ [content], .failed)) ∧
    (∀ (fuel k : Nat) (sess : Session) (history : List Content),
      errorsOnlyLast (traceEvents (runLoopAux o retention fuel k sess history).1)) := by
  constructor
  · intro fuel k sess history content e hc hg hnz hex
    have hzf : (extractFunctionCalls content).isEmpty = false := by
      simpa [List.isEmpty_iff] using hnz
    simp only [runLoopAux, hc, Bool.false_eq_true, if_false]
    rw [hg]
    simp only [hzf, Bool.false_eq_true, if_false]
    rw [hex]
  · exact run_loop_errors_only_last o retention

/-- Witness for C4: the sample run whose custom call is rejected emits the
progress event, one error event, and stops with only the model turn added. -/
theorem dispatch_failure_single_error_witness :
    runLoopAux sampleRejectOracle 3 1 0 sampleSession (initialHistory "go") =
      (.genReq (initialHistory "go") ::
         .emit (.progress (extractText sampleCustomTurn)
           (createFunctionCallEvents (extractFunctionCalls sampleCustomTurn)).1) ::
         ((executeFunctionCalls sampleSession (sampleRejectOracle.resolve 0)
             (extractFunctionCalls sampleCustomTurn)
             (createFunctionCallEvents (extractFunctionCalls sampleCustomTurn)).2).1 ++
           [.emit (.error "function call custom_tool rejected: nope")]),
       initialHistory "go" ++ [sampleCustomTurn], .failed) :=
  (dispatch_failure_single_error sampleRejectOracle 3).1 0 0 sampleSession
    (initialHistory "go") sampleCustomTurn
    "function call custom_tool rejected: nope" rfl rfl (by decide) rfl

/-! ## Claim C9 -/

theorem exec_aux_await_ge (res : Nat → Resolution)
    (pendings : List PendingResponse) :
    ∀ (fcs : List FunctionCallData) (sess : Session) (pIdx j : Nat),
      TraceItem.awaitCustom j ∈ (executeFunctionCallsAux res pendings sess pIdx fcs).1 →
      pIdx ≤ j := by
  intro fcs
  induction fcs with
  | nil =>
    intro sess pIdx j ht
    rw [execAux_nil] at ht
    simp at ht
  | cons fc rest ih =>
    intro sess pIdx j ht
    by_cases hb : IsBuiltInTool fc.name
    · cases hhb : HandleBuiltInTool sess fc.name fc.args [] with
      | error e =>
        rw [execAux_cons_builtin_error res pendings sess pIdx fc rest e hb hhb] at ht
        simp at ht
      | ok ps =>
        obtain ⟨part1, sess1⟩ := ps
        rw [execAux_cons_builtin_ok res pendings sess sess1 pIdx fc rest part1 hb hhb] at ht
        rcases List.mem_cons.mp ht with h1 | h2
        · simp at h1
        · exact ih sess1 pIdx j h2
    · have hbf : IsBuiltInTool fc.name = false := by simpa using hb
      cases hget : pendings.get? pIdx with
      | none =>
        rw [execAux_cons_custom_none res pendings sess pIdx fc rest hbf hget] at ht
        simp at ht
        omega
      | some pending =>
        rw [execAux_cons_custom res pendings sess pIdx fc rest pending hbf hget] at ht
        cases hres : res pIdx with
        | cancelled => rw [hres] at ht; simp at ht; omega
        | reject e => rw [hres] at ht; simp at ht; omega
        | respond response =>
          rw [hres] at ht
          rcases List.mem_cons.mp ht with h1 | h2
          · simp at h1; omega
          · have := ih sess (pIdx + 1) j h2
            omega

theorem exec_aux_await_once (res : Nat → Resolution)
    (pendings : List PendingResponse) :
    ∀ (fcs : List FunctionCallData) (sess : Session) (pIdx j : Nat),
      ((executeFunctionCallsAux res pendings sess pIdx fcs).1.filter
        (fun t => t = TraceItem.awaitCustom j)).length ≤ 1 := by
  intro fcs
  induction fcs with
  | nil =>
    intro sess pIdx j
    rw [execAux_nil]
    simp
  | cons fc rest ih =>
    intro sess pIdx j
    by_cases hb : IsBuiltInTool fc.name
    · cases hhb : HandleBuiltInTool sess fc.name fc.args [] with
      | error e =>
        rw [execAux_cons_builtin_error res pendings sess pIdx fc rest e hb hhb]
        simp
      | ok ps =>
        obtain ⟨part1, sess1⟩ := ps
        rw [execAux_cons_builtin_ok res pendings sess sess1 pIdx fc rest part1 hb hhb]
        rw [List.filter_cons]
        simp only [show (decide (TraceItem.execBuiltIn fc.name = TraceItem.awaitCustom j)) =
          false from by simp]
        exact ih sess1 pIdx j
    · have hbf : IsBuiltInTool fc.name = false := by simpa using hb
      cases hget : pendings.get? pIdx with
      | none =>
        rw [execAux_cons_custom_none res pendings sess pIdx fc rest hbf hget]
        rw [List.filter_cons]
        split <;> simp
      | some pending =>
        rw [execAux_cons_custom res pendings sess pIdx fc rest pending hbf hget]
        cases hres : res pIdx with
        | cancelled => rw [List.filter_cons]; split <;> simp
        | reject e => rw [List.filter_cons]; split <;> simp
        | respond response =>
          rw [List.filter_cons]
          by_cases hj : j = pIdx
          · subst hj
            rw [if_pos (by simp)]
            have hnone : ((executeFunctionCallsAux res pendings sess (j + 1) rest).1.filter
                (fun t => t = TraceItem.awaitCustom j)).length = 0 := by
              rw [List.length_eq_zero, List.filter_eq_nil_iff]
              intro t ht hteq
              have hteq2 : t = TraceItem.awaitCustom j := by simpa using hteq
              subst hteq2
              have := exec_aux_await_ge res pendings rest sess (j + 1) j ht
              omega
            rw [List.length_cons, hnone]
          · have hne : (decide (TraceItem.awaitCustom pIdx = TraceItem.awaitCustom j)) = false := by
              simp
              omega
            simp only [hne, Bool.false_eq_true, if_false]
            exact ih sess (pIdx + 1) j

theorem exec_aux_resolve_agree (pendings : List PendingResponse) :
    ∀ (fcs : List FunctionCallData) (res1 res2 : Nat → Resolution)
      (sess : Session) (pIdx : Nat),
      (∀ j, TraceItem.awaitCustom j ∈
          (executeFunctionCallsAux res1 pendings sess pIdx fcs).1 →
        res1 j = res2 j) →
      executeFunctionCallsAux res2 pendings sess pIdx fcs =
        executeFunctionCallsAux res1 pendings sess pIdx fcs := by
  intro fcs
  induction fcs with
  | nil => intro res1 res2 sess pIdx _; rw [execAux_nil, execAux_nil]
  | cons fc rest ih =>
    intro res1 res2 sess pIdx hagree
    by_cases hb : IsBuiltInTool fc.name
    · cases hhb : HandleBuiltInTool sess fc.name fc.args [] with
      | error e =>
        rw [execAux_cons_builtin_error res1 pendings sess pIdx fc rest e hb hhb,
            execAux_cons_builtin_error res2 pendings sess pIdx fc rest e hb hhb]
      | ok ps =>
        obtain ⟨part1, sess1⟩ := ps
        rw [execAux_cons_builtin_ok res1 pendings sess sess1 pIdx fc rest part1 hb hhb,
            execAux_cons_builtin_ok res2 pendings sess sess1 pIdx fc rest part1 hb hhb]
        have hrec := ih res1 res2 sess1 pIdx (fun j hj => by
          refine hagree j ?_
          rw [execAux_cons_builtin_ok res1 pendings sess sess1 pIdx fc rest part1 hb hhb]
          exact List.mem_cons_of_mem _ hj)
        rw [hrec]
    · have hbf : IsBuiltInTool fc.name = false := by simpa using hb
      cases hget : pendings.get? pIdx with
      | none =>
        rw [execAux_cons_custom_none res1 pendings sess pIdx fc rest hbf hget,
            execAux_cons_custom_none res2 pendings sess pIdx fc rest hbf hget]
      | some pending =>
        have hmem : TraceItem.awaitCustom pIdx ∈
            (executeFunctionCallsAux res1 pendings sess pIdx (fc :: rest)).1 := by
          rw [execAux_cons_custom res1 pendings sess pIdx fc rest pending hbf hget]
          cases hres : res1 pIdx <;> simp
        have heq : res1 pIdx = res2 pIdx := hagree pIdx hmem
        rw [execAux_cons_custom res1 pendings sess pIdx fc rest pending hbf hget,
            execAux_cons_custom res2 pendings sess pIdx fc rest pending hbf hget,
            ← heq]
        cases hres : res1 pIdx with
        | cancelled => rfl
        | reject e => rfl
        | respond response =>
          have hrec := ih res1 res2 sess (pIdx + 1) (fun j hj => by
            refine hagree j ?_
            rw [execAux_cons_custom res1 pendings sess pIdx fc rest pending hbf hget, hres]
            exact List.mem_cons_of_mem _ hj)
          rw [hrec]

/-- C9: at most one of respond/reject takes effect on each pending custom
call — the dispatcher waits on each pending index at most once in any run —
and any further settlement is ignored: the dispatch outcome (trace and
result) depends only on the resolutions actually awaited, so changing what a
handle would deliver at any point the dispatcher never waits on (including
after the loop has moved past that call) leaves the dispatch unchanged. -/
theorem custom_call_settled_once :
    (∀ (res : Nat → Resolution) (pendings : List PendingResponse) (sess : Session)
       (fcs : List FunctionCallData) (j : Nat),
      ((executeFunctionCalls sess res fcs pendings).1.filter
        (fun t => t = TraceItem.awaitCustom j)).length ≤ 1) ∧
    (∀ (res1 res2 : Nat → Resolution) (pendings : List PendingResponse)
       (sess : Session) (fcs : List FunctionCallData),
      (∀ j, TraceItem.awaitCustom j ∈ (executeFunctionCalls sess res1 fcs pendings).1 →
        res1 j = res2 j) →
      executeFunctionCalls sess res2 fcs pendings =
        executeFunctionCalls sess res1 fcs pendings) := by
  constructor
  · intro res pendings sess fcs j
    exact exec_aux_await_once res pendings fcs sess 0 j
  · intro res1 res2 pendings sess fcs hagree
    exact exec_aux_resolve_agree pendings fcs res1 res2 sess 0 hagree

/-- Witness for C9: with one custom call, the wait on pending index 0 happens
once, and a second oracle differing only at never-awaited indices yields the
identical dispatch. -/
theorem custom_call_settled_once_witness :
    (((executeFunctionCalls sampleSession (fun _ => .reject "a")
        [{ name := "custom_tool", args := [] }]
        (createFunctionCallEvents [{ name := "custom_tool", args := [] }]).2).1.filter
      (fun t => t = TraceItem.awaitCustom 0)).length ≤ 1) ∧
    executeFunctionCalls sampleSession
        (fun j => if j = 0 then .reject "a" else .respond [])
        [{ name := "custom_tool", args := [] }]
        (createFunctionCallEvents [{ name := "custom_tool", args := [] }]).2 =
      executeFunctionCalls sampleSession (fun _ => .reject "a")
        [{ name := "custom_tool", args := [] }]
        (createFunctionCallEvents [{ name := "custom_tool", args := [] }]).2 :=
  ⟨custom_call_settled_once.1 (fun _ => .reject "a")
      (createFunctionCallEvents [{ name := "custom_tool", args := [] }]).2
      sampleSession [{ name := "custom_tool", args := [] }] 0,
   custom_call_settled_once.2 (fun _ => .reject "a")
      (fun j => if j = 0 then .reject "a" else .respond [])
      (createFunctionCallEvents [{ name := "custom_tool", args := [] }]).2
      sampleSession [{ name := "custom_tool", args := [] }]
      (fun j hj => by
        rw [show (executeFunctionCalls sampleSession (fun _ => .reject "a")
            [{ name := "custom_tool", args := [] }]
            (createFunctionCallEvents [{ name := "custom_tool", args := [] }]).2).1 =
          [TraceItem.awaitCustom 0] from rfl] at hj
        simp at hj
        subst hj
        rfl)⟩

/-! ## Claim C2 -/

theorem pruneRevAux_length (m : Int) :
    ∀ (l : List Content) (f : Nat), (pruneRevAux m f l).length = l.length := by
  intro l
  induction l with
  | nil => intro f; rfl
  | cons c rest ih =>
    intro f
    by_cases h : contentHasScreenshot c <;>
      simp [pruneRevAux, h, ih]

theorem pruneRevAux_getElem? (m : Int) :
    ∀ (l : List Content) (f j : Nat) (hj : j < l.length),
      (pruneRevAux m f l)[j]? =
        some (if contentHasScreenshot l[j] = true ∧
                (m < (f : Int) + (((l.take (j + 1)).filter contentHasScreenshot).length : Int))
              then stripContent l[j] else l[j]) := by
  intro l
  induction l with
  | nil => intro f j hj; exact absurd hj (Nat.not_lt_zero j)
  | cons c rest ih =>
    intro f j hj
    by_cases h : contentHasScreenshot c
    · cases j with
      | zero =>
        rw [show pruneRevAux m f (c :: rest) =
            (if (f + 1 : Int) > m then stripContent c else c) ::
              pruneRevAux m (f + 1) rest from by
          simp [pruneRevAux, h]]
        rw [List.getElem?_cons_zero]
        rw [show (((c :: rest).take (0 + 1)).filter contentHasScreenshot).length = 1 from by
          simp [List.filter_cons, h]]
        simp only [List.getElem_cons_zero]
        by_cases hcond : ((f : Int) + 1 > m)
        · rw [if_pos hcond, if_pos ⟨h, by push_cast; omega⟩]
        · rw [if_neg hcond, if_neg (fun hc => hcond (by exact_mod_cast hc.2))]
      | succ jj =>
        have hj2 : jj < rest.length := Nat.lt_of_succ_lt_succ hj
        rw [show pruneRevAux m f (c :: rest) =
            (if (f + 1 : Int) > m then stripContent c else c) ::
              pruneRevAux m (f + 1) rest from by
          simp [pruneRevAux, h]]
        rw [List.getElem?_cons_succ, ih (f + 1) jj hj2]
        congr 1
        rw [show ((c :: rest).take (jj + 1 + 1)).filter contentHasScreenshot =
            c :: (rest.take (jj + 1)).filter contentHasScreenshot from by
          simp [List.take_succ_cons, List.filter_cons, h]]
        rw [List.length_cons]
        simp only [List.getElem_cons_succ]
        exact if_congr (and_congr_right (fun _ => by push_cast; omega)) rfl rfl
    · cases j with
      | zero =>
        rw [show pruneRevAux m f (c :: rest) = c :: pruneRevAux m f rest from by
          simp [pruneRevAux, h]]
        rw [List.getElem?_cons_zero]
        simp only [List.getElem_cons_zero]
        rw [if_neg (fun hc => h hc.1)]
      | succ jj =>
        have hj2 : jj < rest.length := Nat.lt_of_succ_lt_succ hj
        rw [show pruneRevAux m f (c :: rest) = c :: pruneRevAux m f rest from by
          simp [pruneRevAux, h]]
        rw [List.getElem?_cons_succ, ih f jj hj2]
        congr 1
        rw [show ((c :: rest).take (jj + 1 + 1)).filter contentHasScreenshot =
            (rest.take (jj + 1)).filter contentHasScreenshot from by
          simp [List.take_succ_cons, List.filter_cons, h]]
        simp only [List.getElem_cons_succ]

theorem stripPart_spec (p : Part) :
    (partHasScreenshot p = true →
      (stripPart p).functionResponse =
        p.functionResponse.map (fun fr => { fr with parts := none })) ∧
    (partHasScreenshot p = false → stripPart p = p) ∧
    (stripPart p).text = p.text ∧
    (stripPart p).functionCall = p.functionCall ∧
    (stripPart p).functionResponse.map (fun fr => fr.name) =
      p.functionResponse.map (fun fr => fr.name) ∧
    (stripPart p).functionResponse.map (fun fr => fr.response) =
      p.functionResponse.map (fun fr => fr.response) := by
  cases hfr : p.functionResponse with
  | none =>
    refine ⟨?_, ?_, ?_, ?_, ?_, ?_⟩ <;> simp [stripPart, partHasScreenshot, hfr]
  | some fr =>
    by_cases hcond : (fr.parts.isSome && IsBuiltInTool fr.name) = true
    · refine ⟨?_, ?_, ?_, ?_, ?_, ?_⟩ <;> simp [stripPart, partHasScreenshot, hfr, hcond]
    · refine ⟨?_, ?_, ?_, ?_, ?_, ?_⟩ <;> simp [stripPart, partHasScreenshot, hfr, hcond]

/-- C2: for every history and every retention window `n > 0`, pruning keeps
the history's length and order, leaves every turn alone except the user-role
screenshot-bearing turns beyond the `n` most recent ones (counting from the
end), which are stripped; and stripping only drops the attachment slice of
built-in screenshot-bearing function responses, leaving role, part count,
texts, function calls, and each function response's name and payload
intact. -/
theorem prune_old_screenshots_spec (history : List Content) (n : Int)
    (hn : 0 < n) :
    (pruneOldScreenshots history n).length = history.length ∧
    (∀ i (hi : i < history.length)
       (hi2 : i < (pruneOldScreenshots history n).length),
      (pruneOldScreenshots history n)[i] =
        if contentHasScreenshot history[i] = true ∧
           (n < (((history.drop i).filter contentHasScreenshot).length : Int))
        then stripContent history[i] else history[i]) ∧
    (∀ c : Content, (stripContent c).role = c.role ∧
      (stripContent c).parts.length = c.parts.length) ∧
    (∀ p : Part,
      (partHasScreenshot p = true →
        (stripPart p).functionResponse =
          p.functionResponse.map (fun fr => { fr with parts := none })) ∧
      (partHasScreenshot p = false → stripPart p = p) ∧
      (stripPart p).text = p.text ∧
      (stripPart p).functionCall = p.functionCall ∧
      (stripPart p).functionResponse.map (fun fr => fr.name) =
        p.functionResponse.map (fun fr => fr.name) ∧
      (stripPart p).functionResponse.map (fun fr => fr.response) =
        p.functionResponse.map (fun fr => fr.response)) := by
  have hL : (pruneRevAux n 0 history.reverse).length = history.length := by
    rw [pruneRevAux_length, List.length_reverse]
  refine ⟨?_, ?_, ?_, stripPart_spec⟩
  · show (pruneRevAux n 0 history.reverse).reverse.length = history.length
    rw [List.length_reverse, hL]
  · intro i hi hi2
    have h1 : (pruneOldScreenshots history n)[i]? =
        some (if contentHasScreenshot history[i] = true ∧
                (n < (((history.drop i).filter contentHasScreenshot).length : Int))
              then stripContent history[i] else history[i]) := by
      show (pruneRevAux n 0 history.reverse).reverse[i]? = _
      rw [List.getElem?_reverse (by omega : i < (pruneRevAux n 0 history.reverse).length)]
      rw [hL]
      rw [pruneRevAux_getElem? n history.reverse 0 (history.length - 1 - i)
        (by rw [List.length_reverse]; omega)]
      have hb1 : history.length - 1 - i < history.reverse.length := by
        rw [List.length_reverse]; omega
      have hrevq : history.reverse[history.length - 1 - i]? = history[i]? := by
        rw [List.getElem?_reverse (by omega : history.length - 1 - i < history.length)]
        rw [show history.length - 1 - (history.length - 1 - i) = i from by omega]
      have hrev : history.reverse[history.length - 1 - i] = history[i] := by
        have hq := hrevq
        rw [List.getElem?_eq_getElem hb1, List.getElem?_eq_getElem hi] at hq
        exact Option.some.inj hq
      rw [hrev]
      rw [show (history.reverse.take (history.length - 1 - i + 1)).filter
            contentHasScreenshot =
          ((history.drop i).filter contentHasScreenshot).reverse from by
        rw [List.take_reverse]
        rw [show history.length - (history.length - 1 - i + 1) = i from by omega]
        rw [List.filter_reverse]]
      rw [List.length_reverse]
      simp only [Nat.cast_zero, zero_add]
    have h2 := List.getElem?_eq_getElem hi2
    rw [h2] at h1
    exact Option.some.inj h1
  · intro c
    exact ⟨rfl, by simp [stripContent]⟩

/-- Witness for C2: pruning the sample history with window 2 keeps its
length. -/
theorem prune_old_screenshots_spec_witness :
    (0 : Int) < 2 ∧
    (pruneOldScreenshots sampleHistory 2).length = sampleHistory.length :=
  ⟨by decide, (prune_old_screenshots_spec sampleHistory 2 (by decide)).1⟩

/-- Witness for C10: the handle of a `click_at` call has `needsAction` false
and its respond/reject invocations have no effect. -/
theorem built_in_handle_respond_noop_witness :
    (((createFunctionCallEvents [{ name := "click_at", args := [] }]).1.get
        ⟨0, by decide⟩).NeedsAction = false) ∧
    ((createFunctionCallEvents [{ name := "click_at", args := [] }]).1.get
        ⟨0, by decide⟩).Respond [] = .noEffect :=
  ⟨rfl,
   (built_in_handle_respond_noop [{ name := "click_at", args := [] }] 0
      (by decide) (by decide) rfl).2.2.1 []⟩

end GeminiRod
